import Mathlib

/-!
Shallow embedding of the dynamic load-balancer simulation
(`processLoaded.py`): the `Task` / `Processor` data model, the four
distribution strategies, the per-tick processing cycle, and the
processor-count resizing operation.

Modelling conventions:
* Python numbers (task loads, execution times, processing speeds) are
  embedded as exact rationals `ℚ`.
* Python object references are modelled by positions: where the source
  sorts a list of processor objects and mutates the chosen object, the
  embedding sorts the list of indices `List.range n` with the same key
  and updates the list at the chosen index.
* Python's `ZeroDivisionError` is modelled by `Option`: `pydiv a b` is
  `none` exactly when `b = 0`, and a strategy whose key computation
  raises propagates `none`.
* `queue.Queue` is a FIFO: `put` appends at the tail of a list, `get`
  takes the head.
-/

namespace DynamicLoad

/-- `Task.__init__`: `remaining_time` starts equal to `execution_time`;
`id` plays the role of Python object identity. -/
structure Task where
  id : Nat
  load : ℚ
  execution_time : ℚ
  remaining_time : ℚ
deriving DecidableEq, Repr

/-- `Processor.__init__(id, capacity=100, processing_speed=1.0)` state. -/
structure Processor where
  id : Nat
  capacity : ℚ
  processing_speed : ℚ
  current_load : ℚ
  tasks : List Task
  history : List ℚ
deriving DecidableEq, Repr

instance : Inhabited Processor := ⟨⟨0, 100, 1, 0, [], []⟩⟩

/-- `Processor(i)` with the constructor's default arguments. -/
def Processor.mk0 (id : Nat) : Processor :=
  { id := id, capacity := 100, processing_speed := 1, current_load := 0,
    tasks := [], history := [] }

/-- `Processor.add_task`: append the task, add its load. -/
def Processor.add_task (p : Processor) (t : Task) : Processor :=
  { p with tasks := p.tasks ++ [t], current_load := p.current_load + t.load }

/-- `Processor.remove_task`: if present, remove (first occurrence) and
subtract its load; otherwise a no-op. -/
def Processor.remove_task (p : Processor) (t : Task) : Processor :=
  if t ∈ p.tasks then
    { p with tasks := p.tasks.erase t, current_load := p.current_load - t.load }
  else p

/-- `Processor.update_history`: append `current_load`, then keep only the
last 100 entries (`history[-100:]`). -/
def Processor.update_history (p : Processor) : Processor :=
  let h := p.history ++ [p.current_load]
  { p with history := if h.length > 100 then h.drop (h.length - 100) else h }

/-- `Processor.get_available_capacity`. -/
def Processor.get_available_capacity (p : Processor) : ℚ :=
  p.capacity - p.current_load

/-- `Processor.process_tasks`: decrement every owned task's
`remaining_time` by `processing_speed`, collect those at `≤ 0`, remove
each collected task via `remove_task`, update history, and return the
completed tasks. -/
def Processor.process_tasks (p : Processor) : Processor × List Task :=
  let ticked := p.tasks.map fun t =>
    { t with remaining_time := t.remaining_time - p.processing_speed }
  let completed := ticked.filter fun t => t.remaining_time ≤ 0
  let p2 := completed.foldl Processor.remove_task { p with tasks := ticked }
  (p2.update_history, completed)

/-- Python float division: raises `ZeroDivisionError` on a zero
denominator, modelled as `none`. -/
def pydiv (a b : ℚ) : Option ℚ :=
  if b = 0 then none else some (a / b)

/-- The per-processor key computation loop of `sorted(..., key=...)` and
of the adaptive score loop: every key is computed, and a raised
exception (`none`) aborts the whole computation. -/
def computeKeys {α β : Type} (f : α → Option β) : List α → Option (List β)
  | [] => some []
  | a :: l =>
    match f a, computeKeys f l with
    | some b, some bs => some (b :: bs)
    | _, _ => none

/-- `LoadBalancer.__init__` state (the `running`/`paused` flags carried
for completeness). -/
structure LoadBalancer where
  processors : List Processor
  task_queue : List Task
  completed_tasks : Nat
  task_id_counter : Nat
  algorithm : String
  running : Bool
  paused : Bool
deriving DecidableEq, Repr

/-- `LoadBalancer(num_processors)`. -/
def mkLoadBalancer (num_processors : Nat) : LoadBalancer :=
  { processors := (List.range num_processors).map Processor.mk0,
    task_queue := [], completed_tasks := 0, task_id_counter := 0,
    algorithm := "round_robin", running := false, paused := false }

/-- `LoadBalancer.add_task(load, execution_time)`: make a task with the
next id and enqueue it. -/
def LoadBalancer.add_task (lb : LoadBalancer) (load execution_time : ℚ) :
    LoadBalancer :=
  let t : Task := { id := lb.task_id_counter, load := load,
                    execution_time := execution_time,
                    remaining_time := execution_time }
  { lb with task_id_counter := lb.task_id_counter + 1,
            task_queue := lb.task_queue ++ [t] }

/-- Mutation of the processor object at position `k` of the list
(Python mutates the chosen reference in place). -/
def addTaskAt : List Processor → Nat → Task → List Processor
  | [], _, _ => []
  | p :: ps, 0, t => p.add_task t :: ps
  | p :: ps, k + 1, t => p :: addTaskAt ps k t

/-- Current load of the processor at position `i` (positions stand for
the Python object references being sorted). -/
def loadAt (ps : List Processor) (i : Nat) : ℚ :=
  (ps.getD i default).current_load

/-- `LoadBalancer._round_robin`: scan the processors in sequence order
and give the task to the first one whose available capacity covers the
task's load; if none has capacity, give it to the first processor. -/
def LoadBalancer._round_robin (lb : LoadBalancer) (t : Task) : LoadBalancer :=
  match lb.processors.findIdx? (fun p => t.load ≤ p.get_available_capacity) with
  | some k => { lb with processors := addTaskAt lb.processors k t }
  | none =>
    if lb.processors.isEmpty then lb
    else { lb with processors := addTaskAt lb.processors 0 t }

/-- `LoadBalancer._least_loaded`: stable-sort the processors by
`current_load` and give the task to the head of the sorted sequence;
the `elif` branch assigns to the same processor when it lacks capacity. -/
def LoadBalancer._least_loaded (lb : LoadBalancer) (t : Task) : LoadBalancer :=
  let idxs := (List.range lb.processors.length).mergeSort
    (fun i j => decide (loadAt lb.processors i ≤ loadAt lb.processors j))
  match idxs with
  | [] => lb
  | k :: _ =>
    if t.load ≤ (lb.processors.getD k default).get_available_capacity then
      { lb with processors := addTaskAt lb.processors k t }
    else
      { lb with processors := addTaskAt lb.processors k t }

/-- `LoadBalancer._weighted_distribution`: stable-sort by the key
`current_load / processing_speed` (every key is computed before the
sort, so any zero speed raises) and give the task to the head. -/
def LoadBalancer._weighted_distribution (lb : LoadBalancer) (t : Task) :
    Option LoadBalancer :=
  match computeKeys (fun p => pydiv p.current_load p.processing_speed)
      lb.processors with
  | none => none
  | some keys =>
    let idxs := (List.range lb.processors.length).mergeSort
      (fun i j => decide (keys.getD i 0 ≤ keys.getD j 0))
    match idxs with
    | [] => some lb
    | k :: _ =>
      if t.load ≤ (lb.processors.getD k default).get_available_capacity then
        some { lb with processors := addTaskAt lb.processors k t }
      else
        some { lb with processors := addTaskAt lb.processors k t }

/-- The adaptive score of one processor:
`(current_load/capacity) * (1/processing_speed) * (1 + recent_load/200)`
with `recent_load` the mean of the last 10 history samples
(`max(len, 1)` guards that division). -/
def adaptiveScore (p : Processor) : Option ℚ :=
  let recent := p.history.drop (p.history.length - 10)
  let recent_load := recent.sum / (max recent.length 1 : ℚ)
  match pydiv p.current_load p.capacity, pydiv 1 p.processing_speed with
  | some a, some b => some (a * b * (1 + recent_load / 200))
  | _, _ => none

/-- `LoadBalancer._adaptive_distribution`: compute every score, sort the
processors by score (lower is better), give the task to the head. -/
def LoadBalancer._adaptive_distribution (lb : LoadBalancer) (t : Task) :
    Option LoadBalancer :=
  match computeKeys adaptiveScore lb.processors with
  | none => none
  | some keys =>
    let idxs := (List.range lb.processors.length).mergeSort
      (fun i j => decide (keys.getD i 0 ≤ keys.getD j 0))
    match idxs with
    | [] => some lb
    | k :: _ =>
      if t.load ≤ (lb.processors.getD k default).get_available_capacity then
        some { lb with processors := addTaskAt lb.processors k t }
      else
        some { lb with processors := addTaskAt lb.processors k t }

/-- One dispatch step of `distribute_tasks`: the dequeued task is routed
by the current algorithm name; any other name matches no branch, so the
task just disappears. -/
def LoadBalancer.dispatch (lb : LoadBalancer) (t : Task) : Option LoadBalancer :=
  if lb.algorithm = "round_robin" then some (lb._round_robin t)
  else if lb.algorithm = "least_loaded" then some (lb._least_loaded t)
  else if lb.algorithm = "weighted" then lb._weighted_distribution t
  else if lb.algorithm = "adaptive" then lb._adaptive_distribution t
  else some lb

/-- The `while not empty` drain loop of `distribute_tasks`, recursing on
the queued tasks; a raised `ZeroDivisionError` aborts the loop. -/
def distributeGo (lb : LoadBalancer) : List Task → Option LoadBalancer
  | [] => some lb
  | t :: rest =>
    match LoadBalancer.dispatch { lb with task_queue := rest } t with
    | none => none
    | some lb2 => distributeGo lb2 rest

/-- `LoadBalancer.distribute_tasks`. -/
def LoadBalancer.distribute_tasks (lb : LoadBalancer) : Option LoadBalancer :=
  distributeGo lb lb.task_queue

/-- The body of `process_cycle`'s loop for one processor: an extra
`update_history` when the processor owns no tasks, then `process_tasks`
(which itself ends in `update_history`). -/
def processCycleStep (p : Processor) : Processor × List Task :=
  let p1 := if p.tasks.isEmpty then p.update_history else p
  p1.process_tasks

/-- `LoadBalancer.process_cycle`: run every processor's step, collect
all completed tasks, add their count to `completed_tasks`. -/
def LoadBalancer.process_cycle (lb : LoadBalancer) : LoadBalancer × List Task :=
  let results := lb.processors.map processCycleStep
  let completed := (results.map Prod.snd).flatten
  ({ lb with processors := results.map Prod.fst,
             completed_tasks := lb.completed_tasks + completed.length },
   completed)

/-- `LoadBalancerApp.change_algorithm`: the chosen name is written
straight into the balancer, with no validation. -/
def change_algorithm (lb : LoadBalancer) (name : String) : LoadBalancer :=
  { lb with algorithm := name }

/-- `LoadBalancerApp.change_processors`: growing appends `Processor(i)`
for `i` in `range(current, num)`; shrinking collects the tasks of the
removed trailing processors and puts each back on the queue. -/
def change_processors (lb : LoadBalancer) (num_processors : Nat) : LoadBalancer :=
  let current_count := lb.processors.length
  if num_processors > current_count then
    let fresh := (List.range' current_count (num_processors - current_count)).map
      Processor.mk0
    { lb with processors := lb.processors ++ fresh }
  else if num_processors < current_count then
    let removed_tasks := (lb.processors.drop num_processors).foldl
      (fun acc p => acc ++ p.tasks) []
    let queue2 := removed_tasks.foldl (fun q t => q ++ [t]) lb.task_queue
    { lb with processors := lb.processors.take num_processors,
              task_queue := queue2 }
  else lb

/-- The spec's selection rule for `least_loaded`, written from its words:
the processor with minimum `current_load`, ties broken by original
sequence order — i.e. the first position whose load is `≤` every load. -/
def specLeastLoadedIdx (ps : List Processor) : Option Nat :=
  (List.range ps.length).find? fun k =>
    decide (∀ j, j < ps.length → loadAt ps k ≤ loadAt ps j)

/-- Total task count over a processor sequence. -/
def totalTasks (ps : List Processor) : Nat :=
  (ps.map fun p => p.tasks.length).sum

/-- The exact `current_load` bookkeeping invariant. -/
def loadInvariant (p : Processor) : Prop :=
  p.current_load = (p.tasks.map Task.load).sum

/-- One externally driven task-list mutation of a processor. -/
inductive TaskOp where
  | add (t : Task)
  | remove (t : Task)

/-- Apply one `TaskOp`. -/
def applyOp (p : Processor) : TaskOp → Processor
  | .add t => p.add_task t
  | .remove t => p.remove_task t

/-- One simulated tick in which the processor's sampled load is `x`:
the load is observed and `update_history` records it. -/
def histStep (p : Processor) (x : ℚ) : Processor :=
  Processor.update_history { p with current_load := x }

section Helpers

lemma dispatch_unknown (lb : LoadBalancer) (t : Task)
    (h : lb.algorithm ∉ ["round_robin", "least_loaded", "weighted", "adaptive"]) :
    lb.dispatch t = some lb := by
  simp only [List.mem_cons, List.not_mem_nil, or_false, not_or] at h
  obtain ⟨h1, h2, h3, h4⟩ := h
  simp [LoadBalancer.dispatch, h1, h2, h3, h4]

lemma distributeGo_unknown : ∀ (q : List Task) (lb : LoadBalancer),
    lb.task_queue = q →
    lb.algorithm ∉ ["round_robin", "least_loaded", "weighted", "adaptive"] →
    distributeGo lb q = some { lb with task_queue := [] }
  | [], lb, hq, _ => by
    cases lb
    simp_all [distributeGo]
  | t :: rest, lb, hq, h => by
    have hd := dispatch_unknown { lb with task_queue := rest } t (by simpa using h)
    have ih := distributeGo_unknown rest { lb with task_queue := rest } rfl
      (by simpa using h)
    simp only [distributeGo, hd]
    exact ih

lemma loadInvariant_add (p : Processor) (t : Task) (h : loadInvariant p) :
    loadInvariant (p.add_task t) := by
  unfold loadInvariant at h ⊢
  simp [Processor.add_task, h]

lemma loadInvariant_remove (p : Processor) (t : Task) (h : loadInvariant p) :
    loadInvariant (p.remove_task t) := by
  unfold loadInvariant at h ⊢
  unfold Processor.remove_task
  split
  · next hm =>
    have hsum : ((p.tasks.map Task.load).sum : ℚ) =
        t.load + ((p.tasks.erase t).map Task.load).sum := by
      simpa using ((List.perm_cons_erase hm).map Task.load).sum_eq
    show p.current_load - t.load = ((p.tasks.erase t).map Task.load).sum
    rw [h, hsum]
    ring
  · exact h

lemma updateHistory_step (L : List ℚ) (p : Processor)
    (hp : p.history = L.drop (L.length - 100)) :
    p.update_history.history =
      (L ++ [p.current_load]).drop ((L ++ [p.current_load]).length - 100) := by
  have hplen : p.history.length = L.length - (L.length - 100) := by
    rw [hp]; simp
  simp only [Processor.update_history]
  split
  · next hcond =>
    have hlen : p.history.length = 100 := by
      simp at hcond; omega
    have hLlen : 100 ≤ L.length := by omega
    have hdrop1 : (p.history ++ [p.current_load]).length - 100 = 1 := by
      simp [hlen]
    rw [hdrop1, hp]
    rw [List.drop_append_of_le_length (by simp; omega)]
    rw [List.drop_drop]
    rw [List.drop_append_of_le_length (by simp)]
    have heq : L.length - 100 + 1 = (L ++ [p.current_load]).length - 100 := by
      simp; omega
    rw [heq]
  · next hcond =>
    have hlen : L.length ≤ 99 := by
      simp at hcond; omega
    have h0 : L.length - 100 = 0 := by omega
    have h1 : (L ++ [p.current_load]).length - 100 = 0 := by simp; omega
    rw [hp, h0, h1]
    simp

lemma histGo (samples : List ℚ) : ∀ (L : List ℚ) (p : Processor),
    p.history = L.drop (L.length - 100) →
    (samples.foldl histStep p).history =
      (L ++ samples).drop ((L ++ samples).length - 100) := by
  induction samples with
  | nil => intro L p hp; simpa using hp
  | cons x xs ih =>
    intro L p hp
    simp only [List.foldl_cons]
    have h1 := updateHistory_step L { p with current_load := x } (by simpa using hp)
    have h2 := ih (L ++ [x]) (histStep p x) h1
    simpa [List.append_assoc] using h2

lemma foldl_collect_tasks (l : List Processor) (acc : List Task) :
    l.foldl (fun a p => a ++ p.tasks) acc = acc ++ (l.map Processor.tasks).flatten := by
  induction l generalizing acc with
  | nil => simp
  | cons p ps ih => simp [ih, List.append_assoc]

lemma foldl_put (ts : List Task) (q : List Task) :
    ts.foldl (fun q2 t => q2 ++ [t]) q = q ++ ts := by
  induction ts generalizing q with
  | nil => simp
  | cons t rest ih => simp [ih]

lemma pair_sublist_range {j k n : Nat} (hjk : j < k) (hkn : k < n) :
    List.Sublist [j, k] (List.range n) := by
  induction n with
  | zero => omega
  | succ m ih =>
    rw [List.range_succ]
    by_cases hk : k < m
    · exact (ih hk).trans (List.sublist_append_left _ _)
    · have hkm : k = m := by omega
      subst hkm
      have h1 : List.Sublist [j] (List.range k) := by
        rw [List.singleton_sublist, List.mem_range]
        exact hjk
      exact List.Sublist.append h1 (List.Sublist.refl [k])

/-- The head of the stable sort of positions `0..n-1` by the key `f` is
the first position attaining the minimal key. -/
lemma mergeSort_range_head (f : Nat → ℚ) (n : Nat) (hn : 0 < n) :
    ∃ k rest,
      (List.range n).mergeSort (fun i j => decide (f i ≤ f j)) = k :: rest ∧
      k < n ∧ (∀ j, j < n → f k ≤ f j) ∧ (∀ j, j < k → f k < f j) := by
  have htrans : ∀ a b c : Nat, (fun i j => decide (f i ≤ f j)) a b →
      (fun i j => decide (f i ≤ f j)) b c → (fun i j => decide (f i ≤ f j)) a c := by
    intro a b c hab hbc
    simp only [decide_eq_true_eq] at *
    exact le_trans hab hbc
  have htotal : ∀ a b : Nat, ((fun i j => decide (f i ≤ f j)) a b ||
      (fun i j => decide (f i ≤ f j)) b a) = true := by
    intro a b
    simp only [Bool.or_eq_true, decide_eq_true_eq]
    exact le_total (f a) (f b)
  have hperm := List.mergeSort_perm (List.range n) (fun i j => decide (f i ≤ f j))
  cases hsort : (List.range n).mergeSort (fun i j => decide (f i ≤ f j)) with
  | nil =>
    exfalso
    have := hperm.length_eq
    rw [hsort] at this
    simp at this
    omega
  | cons k rest =>
    have hmem : ∀ j, j ∈ k :: rest ↔ j < n := by
      intro j
      rw [← hsort, List.mem_mergeSort, List.mem_range]
    refine ⟨k, rest, rfl, ?_, ?_, ?_⟩
    · exact (hmem k).mp (List.mem_cons_self k rest)
    · have hpw : (k :: rest).Pairwise (fun a b => decide (f a ≤ f b) = true) := by
        rw [← hsort]
        exact List.sorted_mergeSort htrans htotal (List.range n)
      intro j hj
      rcases List.mem_cons.mp ((hmem j).mpr hj) with hjk | hjrest
      · subst hjk; exact le_refl _
      · have := List.rel_of_pairwise_cons hpw hjrest
        simpa using this
    · intro j hj
      by_contra hcon
      push_neg at hcon
      have hjn : j < n := by
        have := (hmem k).mp (List.mem_cons_self k rest)
        omega
      have hlejk : (fun i j2 => decide (f i ≤ f j2)) j k = true := by
        simpa using hcon
      have hsub := List.pair_sublist_mergeSort htrans htotal hlejk
        (pair_sublist_range hj ((hmem k).mp (List.mem_cons_self k rest)))
      rw [hsort] at hsub
      have hnodup : (k :: rest).Nodup := by
        rw [← hsort]
        exact hperm.nodup_iff.mpr (List.nodup_range n)
      cases hsub with
      | cons a h2 =>
        exact absurd (h2.subset (by simp)) (List.nodup_cons.mp hnodup).1
      | cons₂ a h2 => omega

lemma find?_range_eq_some {p : Nat → Bool} {n k : Nat} (hk : k < n)
    (hpk : p k = true) (hlt : ∀ j, j < k → p j = false) :
    (List.range n).find? p = some k := by
  induction n with
  | zero => omega
  | succ m ih =>
    rw [List.range_succ, List.find?_append]
    by_cases hkm : k < m
    · rw [ih hkm]
      rfl
    · have hkeq : k = m := by omega
      subst hkeq
      have hnone : (List.range k).find? p = none := by
        rw [List.find?_eq_none]
        intro x hx
        rw [List.mem_range] at hx
        simp [hlt x hx]
      rw [hnone]
      simp [hpk]

lemma computeKeys_eq_none_of_mem {α β : Type} (f : α → Option β) :
    ∀ (l : List α) (x : α), x ∈ l → f x = none → computeKeys f l = none := by
  intro l
  induction l with
  | nil => intro x hx; simp at hx
  | cons a l ih =>
    intro x hx hfx
    rcases List.mem_cons.mp hx with rfl | hxl
    · simp [computeKeys, hfx]
    · cases hfa : f a with
      | none => simp [computeKeys, hfa]
      | some b => simp [computeKeys, hfa, ih x hxl hfx]

lemma computeKeys_pydiv_some (l : List Processor)
    (hs : ∀ p ∈ l, p.processing_speed ≠ 0) :
    ∃ keys, computeKeys (fun p => pydiv p.current_load p.processing_speed) l =
      some keys := by
  induction l with
  | nil => exact ⟨[], rfl⟩
  | cons a l ih =>
    obtain ⟨keys, hkeys⟩ := ih fun p hp => hs p (List.mem_cons_of_mem a hp)
    have hfa : pydiv a.current_load a.processing_speed =
        some (a.current_load / a.processing_speed) := by
      simp [pydiv, hs a (List.mem_cons_self a l)]
    exact ⟨a.current_load / a.processing_speed :: keys,
      by simp [computeKeys, hfa, hkeys]⟩

lemma adaptiveScore_some (p : Processor) (hs : p.processing_speed ≠ 0)
    (hc : p.capacity ≠ 0) : adaptiveScore p = some
      (p.current_load / p.capacity * (1 / p.processing_speed) *
        (1 + (p.history.drop (p.history.length - 10)).sum /
          (max (p.history.drop (p.history.length - 10)).length 1 : ℚ) / 200)) := by
  simp [adaptiveScore, pydiv, hs, hc]

lemma adaptiveScore_zero_speed (p : Processor) (hs : p.processing_speed = 0) :
    adaptiveScore p = none := by
  cases hdiv : pydiv p.current_load p.capacity with
  | none => simp [adaptiveScore, hdiv, pydiv, hs]
  | some a => simp [adaptiveScore, hdiv, pydiv, hs]

lemma computeKeys_adaptive_some (l : List Processor)
    (h : ∀ p ∈ l, p.processing_speed ≠ 0 ∧ p.capacity ≠ 0) :
    ∃ keys, computeKeys adaptiveScore l = some keys := by
  induction l with
  | nil => exact ⟨[], rfl⟩
  | cons a l ih =>
    obtain ⟨keys, hkeys⟩ := ih fun p hp => h p (List.mem_cons_of_mem a hp)
    obtain ⟨hs, hc⟩ := h a (List.mem_cons_self a l)
    refine ⟨(a.current_load / a.capacity * (1 / a.processing_speed) *
      (1 + (a.history.drop (a.history.length - 10)).sum /
        (max (a.history.drop (a.history.length - 10)).length 1 : ℚ) / 200)) ::
      keys, ?_⟩
    simp only [computeKeys, adaptiveScore_some a hs hc, hkeys]

lemma round_robin_assigns (lb : LoadBalancer) (t : Task)
    (hne : lb.processors ≠ []) :
    ∃ k, k < lb.processors.length ∧
      lb._round_robin t = { lb with processors := addTaskAt lb.processors k t } := by
  unfold LoadBalancer._round_robin
  cases hidx : lb.processors.findIdx?
      (fun p => t.load ≤ p.get_available_capacity) with
  | some k =>
    obtain ⟨hk, -, -⟩ := List.findIdx?_eq_some_iff_getElem.mp hidx
    exact ⟨k, hk, rfl⟩
  | none =>
    have hemp : lb.processors.isEmpty = false := by
      simpa [List.isEmpty_iff] using hne
    refine ⟨0, List.length_pos.mpr hne, ?_⟩
    simp [hemp]

lemma least_loaded_assigns (lb : LoadBalancer) (t : Task)
    (hne : lb.processors ≠ []) :
    ∃ k, k < lb.processors.length ∧
      lb._least_loaded t = { lb with processors := addTaskAt lb.processors k t } := by
  obtain ⟨k, rest, hsort, hkn, -, -⟩ :=
    mergeSort_range_head (loadAt lb.processors) lb.processors.length
      (List.length_pos.mpr hne)
  refine ⟨k, hkn, ?_⟩
  simp only [LoadBalancer._least_loaded]
  rw [hsort]
  simp only [ite_self]

lemma weighted_assigns (lb : LoadBalancer) (t : Task)
    (hne : lb.processors ≠ [])
    (hs : ∀ p ∈ lb.processors, p.processing_speed ≠ 0) :
    ∃ k, k < lb.processors.length ∧
      lb._weighted_distribution t =
        some { lb with processors := addTaskAt lb.processors k t } := by
  obtain ⟨keys, hkeys⟩ := computeKeys_pydiv_some lb.processors hs
  obtain ⟨k, rest, hsort, hkn, -, -⟩ :=
    mergeSort_range_head (fun i => keys.getD i 0) lb.processors.length
      (List.length_pos.mpr hne)
  refine ⟨k, hkn, ?_⟩
  simp only [LoadBalancer._weighted_distribution, hkeys]
  rw [hsort]
  simp only [ite_self]

lemma adaptive_assigns (lb : LoadBalancer) (t : Task)
    (hne : lb.processors ≠ [])
    (h : ∀ p ∈ lb.processors, p.processing_speed ≠ 0 ∧ p.capacity ≠ 0) :
    ∃ k, k < lb.processors.length ∧
      lb._adaptive_distribution t =
        some { lb with processors := addTaskAt lb.processors k t } := by
  obtain ⟨keys, hkeys⟩ := computeKeys_adaptive_some lb.processors h
  obtain ⟨k, rest, hsort, hkn, -, -⟩ :=
    mergeSort_range_head (fun i => keys.getD i 0) lb.processors.length
      (List.length_pos.mpr hne)
  refine ⟨k, hkn, ?_⟩
  simp only [LoadBalancer._adaptive_distribution, hkeys]
  rw [hsort]
  simp only [ite_self]

lemma weighted_zero_speed (lb : LoadBalancer) (t : Task)
    (h : ∃ p ∈ lb.processors, p.processing_speed = 0) :
    lb._weighted_distribution t = none := by
  obtain ⟨p, hp, hp0⟩ := h
  have hd : pydiv p.current_load p.processing_speed = none := by
    simp [pydiv, hp0]
  simp only [LoadBalancer._weighted_distribution,
    computeKeys_eq_none_of_mem
      (fun q => pydiv q.current_load q.processing_speed) lb.processors p hp hd]

lemma adaptive_zero_speed (lb : LoadBalancer) (t : Task)
    (h : ∃ p ∈ lb.processors, p.processing_speed = 0) :
    lb._adaptive_distribution t = none := by
  obtain ⟨p, hp, hp0⟩ := h
  simp only [LoadBalancer._adaptive_distribution,
    computeKeys_eq_none_of_mem adaptiveScore lb.processors p hp
      (adaptiveScore_zero_speed p hp0)]

lemma round_robin_empty (lb : LoadBalancer) (t : Task)
    (h : lb.processors = []) : lb._round_robin t = lb := by
  simp [LoadBalancer._round_robin, h]

lemma least_loaded_empty (lb : LoadBalancer) (t : Task)
    (h : lb.processors = []) : lb._least_loaded t = lb := by
  simp [LoadBalancer._least_loaded, h]

lemma weighted_empty (lb : LoadBalancer) (t : Task)
    (h : lb.processors = []) : lb._weighted_distribution t = some lb := by
  simp [LoadBalancer._weighted_distribution, h, computeKeys]

lemma adaptive_empty (lb : LoadBalancer) (t : Task)
    (h : lb.processors = []) : lb._adaptive_distribution t = some lb := by
  simp [LoadBalancer._adaptive_distribution, h, computeKeys]

lemma dispatch_empty (lb : LoadBalancer) (t : Task)
    (h : lb.processors = []) : lb.dispatch t = some lb := by
  simp only [LoadBalancer.dispatch, round_robin_empty lb t h,
    least_loaded_empty lb t h, weighted_empty lb t h, adaptive_empty lb t h]
  split
  · rfl
  split
  · rfl
  split
  · rfl
  split
  · rfl
  · rfl

lemma distributeGo_static : ∀ (q : List Task) (lb : LoadBalancer),
    lb.task_queue = q →
    (∀ (r : List Task) (t : Task),
      LoadBalancer.dispatch { lb with task_queue := r } t =
        some { lb with task_queue := r }) →
    distributeGo lb q = some { lb with task_queue := [] }
  | [], lb, hq, _ => by
    cases lb
    simp_all [distributeGo]
  | t :: rest, lb, hq, h => by
    have ih := distributeGo_static rest { lb with task_queue := rest } rfl
      fun r t2 => h r t2
    simp only [distributeGo, h rest t]
    exact ih

lemma length_addTaskAt : ∀ (ps : List Processor) (k : Nat) (t : Task),
    (addTaskAt ps k t).length = ps.length
  | [], _, _ => rfl
  | p :: ps, 0, t => rfl
  | p :: ps, k + 1, t => by simp [addTaskAt, length_addTaskAt ps k t]

lemma totalTasks_addTaskAt : ∀ (ps : List Processor) (k : Nat) (t : Task),
    k < ps.length → totalTasks (addTaskAt ps k t) = totalTasks ps + 1
  | [], k, t, h => by simp at h
  | p :: ps, 0, t, _ => by
    simp [totalTasks, addTaskAt, Processor.add_task]
    omega
  | p :: ps, k + 1, t, h => by
    have ih := totalTasks_addTaskAt ps k t (by simpa using h)
    simp [totalTasks, addTaskAt] at ih ⊢
    omega

lemma spc_addTaskAt : ∀ (ps : List Processor) (k : Nat) (t : Task),
    (addTaskAt ps k t).map (fun p => (p.processing_speed, p.capacity)) =
      ps.map fun p => (p.processing_speed, p.capacity)
  | [], _, _ => rfl
  | p :: ps, 0, t => by simp [addTaskAt, Processor.add_task]
  | p :: ps, k + 1, t => by simp [addTaskAt, spc_addTaskAt ps k t]

lemma spc_preserved {ps ps2 : List Processor}
    (hmap : ps2.map (fun p => (p.processing_speed, p.capacity)) =
      ps.map fun p => (p.processing_speed, p.capacity))
    (h : ∀ p ∈ ps, p.processing_speed ≠ 0 ∧ p.capacity ≠ 0) :
    ∀ p ∈ ps2, p.processing_speed ≠ 0 ∧ p.capacity ≠ 0 := by
  intro p hp
  have hmem : (p.processing_speed, p.capacity) ∈
      ps.map fun p => (p.processing_speed, p.capacity) := by
    rw [← hmap]
    exact List.mem_map_of_mem _ hp
  obtain ⟨q, hq, heq⟩ := List.mem_map.mp hmem
  simp only [Prod.mk.injEq] at heq
  rw [← heq.1, ← heq.2]
  exact h q hq

lemma dispatch_assigns (lb : LoadBalancer) (t : Task)
    (hne : lb.processors ≠ [])
    (halg : lb.algorithm ∈
      (["round_robin", "least_loaded", "weighted", "adaptive"] : List String))
    (hsc : ∀ p ∈ lb.processors, p.processing_speed ≠ 0 ∧ p.capacity ≠ 0) :
    ∃ k, k < lb.processors.length ∧
      lb.dispatch t = some { lb with processors := addTaskAt lb.processors k t } := by
  simp only [List.mem_cons, List.not_mem_nil, or_false] at halg
  rcases halg with h | h | h | h
  · obtain ⟨k, hk, heq⟩ := round_robin_assigns lb t hne
    exact ⟨k, hk, by simp only [LoadBalancer.dispatch, if_pos h, heq]⟩
  · obtain ⟨k, hk, heq⟩ := least_loaded_assigns lb t hne
    refine ⟨k, hk, ?_⟩
    rw [LoadBalancer.dispatch, if_neg (by rw [h]; decide), if_pos h, heq]
  · obtain ⟨k, hk, heq⟩ := weighted_assigns lb t hne fun p hp => (hsc p hp).1
    refine ⟨k, hk, ?_⟩
    rw [LoadBalancer.dispatch, if_neg (by rw [h]; decide),
      if_neg (by rw [h]; decide), if_pos h, heq]
  · obtain ⟨k, hk, heq⟩ := adaptive_assigns lb t hne hsc
    refine ⟨k, hk, ?_⟩
    rw [LoadBalancer.dispatch, if_neg (by rw [h]; decide),
      if_neg (by rw [h]; decide), if_neg (by rw [h]; decide), if_pos h, heq]

lemma distributeGo_assigns : ∀ (q : List Task) (lb : LoadBalancer),
    lb.task_queue = q → lb.processors ≠ [] →
    lb.algorithm ∈
      (["round_robin", "least_loaded", "weighted", "adaptive"] : List String) →
    (∀ p ∈ lb.processors, p.processing_speed ≠ 0 ∧ p.capacity ≠ 0) →
    ∃ lb2, distributeGo lb q = some lb2 ∧ lb2.task_queue = [] ∧
      totalTasks lb2.processors = totalTasks lb.processors + q.length
  | [], lb, hq, _, _, _ => ⟨lb, rfl, hq, by simp⟩
  | t :: rest, lb, hq, hne, halg, hsc => by
    obtain ⟨k, hk, hd⟩ :=
      dispatch_assigns { lb with task_queue := rest } t hne halg hsc
    have hlen := length_addTaskAt lb.processors k t
    have hne2 : addTaskAt lb.processors k t ≠ [] := by
      have : 0 < (addTaskAt lb.processors k t).length := by
        rw [hlen]
        exact List.length_pos.mpr hne
      exact List.length_pos.mp this
    obtain ⟨lb2, hgo, hq2, htot⟩ := distributeGo_assigns rest
      { lb with task_queue := rest, processors := addTaskAt lb.processors k t }
      rfl hne2 halg
      (spc_preserved (spc_addTaskAt lb.processors k t) hsc)
    refine ⟨lb2, ?_, hq2, ?_⟩
    · simp only [distributeGo, hd]
      exact hgo
    · rw [htot]
      simp only [totalTasks_addTaskAt lb.processors k t hk, List.length_cons]
      omega

end Helpers

section ClaimTheorems

/-- C1: the claim expects the three load-40 tasks to land on processors
0, 1 and 2; on the code the first-fit capacity scan puts the first two
on processor 0 and the third on processor 1, so the claimed layout is
refuted at exactly the scenario's input. -/
theorem C1_round_robin_counterexample :
    ((((mkLoadBalancer 3).add_task 40 5).add_task 40 5).add_task 40
        5).distribute_tasks.map
      (fun l => l.processors.map fun p => p.tasks.map Task.id) ≠
    some [[0], [1], [2]] := by with_unfolding_all decide

/-- C1 (amended): with 3 empty capacity-100 processors and tasks of load
40, 40, 40, the round-robin scan assigns the first two tasks to
processor 0 (which still has capacity at the time of each scan) and the
third to processor 1; processor 2 receives nothing. -/
theorem C1_round_robin_first_fit :
    ((((mkLoadBalancer 3).add_task 40 5).add_task 40 5).add_task 40
        5).distribute_tasks.map
      (fun l => l.processors.map fun p => p.tasks.map Task.id) =
    some [[0, 1], [2], []] := by with_unfolding_all decide

/-- C2: one `process_cycle` on a balancer whose single processor owns no
tasks appends TWO samples to its history (the guarded `update_history`
in `process_cycle` plus the unconditional one inside `process_tasks`),
not the single sample the claim requires. -/
theorem C2_idle_processor_double_history :
    ((mkLoadBalancer 1).process_cycle.1.processors.map fun p => p.history) =
      [[0, 0]] := by with_unfolding_all decide

/-- A speed-1 processor owning a single task with `execution_time = 5`. -/
def fiveTickProcessor : Processor :=
  (Processor.mk0 0).add_task
    { id := 0, load := 20, execution_time := 5, remaining_time := 5 }

/-- The processor state after one `process_tasks` tick. -/
def tickProcessor (p : Processor) : Processor :=
  p.process_tasks.1

/-- C8: a task with `execution_time = 5` on a speed-1 processor is not
completed by any of the first four `process_tasks` calls and is
completed (and removed) on exactly the fifth. -/
theorem C8_completes_on_fifth_tick :
    ((Processor.process_tasks fiveTickProcessor).2 = [] ∧
        (Processor.process_tasks (tickProcessor^[1] fiveTickProcessor)).2 = [] ∧
        (Processor.process_tasks (tickProcessor^[2] fiveTickProcessor)).2 = [] ∧
        (Processor.process_tasks (tickProcessor^[3] fiveTickProcessor)).2 = []) ∧
      (Processor.process_tasks (tickProcessor^[4] fiveTickProcessor)).2.map
        Task.id = [0] ∧
      (Processor.process_tasks (tickProcessor^[4] fiveTickProcessor)).2.map
        Task.remaining_time = [0] ∧
      (Processor.process_tasks (tickProcessor^[4] fiveTickProcessor)).1.tasks =
        [] := by with_unfolding_all decide

/-- C3: in the code, setting an unknown algorithm name is not an error:
the balancer accepts it, and a later `distribute_tasks` dequeues the
pending task and silently discards it (no processor receives it, the
queue ends empty, nothing fails) — refuting the claimed
`InvalidAlgorithm` error reporting at a concrete input. -/
theorem C3_unknown_algorithm_counterexample :
    ((change_algorithm (mkLoadBalancer 2) "bogus").add_task 40
        5).distribute_tasks.map
      (fun l => (l.processors.map fun p => p.tasks.length, l.task_queue.length,
        l.algorithm)) = some ([0, 0], 0, "bogus") := by
  with_unfolding_all decide

/-- C3 (amended): an algorithm name outside the four known ones is
accepted silently; `distribute_tasks` then drains the queue, matches no
dispatch branch, and ends with every dequeued task discarded and the
rest of the state untouched. -/
theorem C3_unknown_algorithm_drops_tasks (lb : LoadBalancer)
    (h : lb.algorithm ∉ ["round_robin", "least_loaded", "weighted", "adaptive"]) :
    lb.distribute_tasks = some { lb with task_queue := [] } :=
  distributeGo_unknown lb.task_queue lb rfl h

/-- C3 witness: the amended statement at a concrete balancer. -/
theorem C3_unknown_algorithm_drops_tasks_witness :
    ((change_algorithm (mkLoadBalancer 2) "xyz").add_task 30 4).distribute_tasks =
      some { (change_algorithm (mkLoadBalancer 2) "xyz").add_task 30 4 with
             task_queue := [] } :=
  C3_unknown_algorithm_drops_tasks _ (by with_unfolding_all decide)

/-- C4: `current_load` equals the sum of the loads of the owned tasks
after every finite sequence of `add_task` / `remove_task` calls
(removals of tasks not owned included), provided it did initially. -/
theorem C4_current_load_invariant (ops : List TaskOp) (p : Processor)
    (h : loadInvariant p) : loadInvariant (ops.foldl applyOp p) := by
  induction ops generalizing p with
  | nil => exact h
  | cons op rest ih =>
    cases op with
    | add t => exact ih _ (loadInvariant_add _ _ h)
    | remove t => exact ih _ (loadInvariant_remove _ _ h)

/-- C4 witness: a fresh processor through a concrete add/remove sequence
(including a removal of a task it does not own). -/
theorem C4_current_load_invariant_witness :
    loadInvariant (List.foldl applyOp (Processor.mk0 7)
      [TaskOp.add ⟨0, 30, 5, 5⟩, TaskOp.add ⟨1, 20, 3, 3⟩,
       TaskOp.remove ⟨0, 30, 5, 5⟩, TaskOp.remove ⟨9, 50, 2, 2⟩]) :=
  C4_current_load_invariant _ _ (by with_unfolding_all rfl)

/-- C5: after any sequence of sampled ticks starting from an empty
history, the history has at most 100 entries and equals exactly the most
recent samples in order (the oldest are evicted first). -/
theorem C5_history_bounded_fifo (samples : List ℚ) :
    (samples.foldl histStep (Processor.mk0 0)).history.length ≤ 100 ∧
    (samples.foldl histStep (Processor.mk0 0)).history =
      samples.drop (samples.length - 100) := by
  have h := histGo samples [] (Processor.mk0 0) (by simp [Processor.mk0])
  simp only [List.nil_append] at h
  refine ⟨?_, h⟩
  rw [h]
  simp
  omega

/-- C7: shrinking to `n` processors keeps exactly the first `n`
processors and appends every task owned by the removed trailing
processors to the pending queue (in order, none lost); growing appends
new `Processor(i)` objects whose ids continue sequentially from the
current count. -/
theorem C7_change_processor_count (lb : LoadBalancer) (n : Nat) :
    (n < lb.processors.length →
      (change_processors lb n).processors = lb.processors.take n ∧
      (change_processors lb n).task_queue = lb.task_queue ++
        ((lb.processors.drop n).map Processor.tasks).flatten) ∧
    (lb.processors.length < n →
      (change_processors lb n).processors = lb.processors ++
        (List.range' lb.processors.length (n - lb.processors.length)).map
          Processor.mk0 ∧
      ((change_processors lb n).processors.map Processor.id).drop
          lb.processors.length =
        List.range' lb.processors.length (n - lb.processors.length)) := by
  constructor
  · intro hlt
    have hgt : ¬ n > lb.processors.length := by omega
    simp only [change_processors, if_neg hgt, if_pos hlt]
    refine ⟨by simp, ?_⟩
    rw [foldl_collect_tasks, foldl_put]
    simp
  · intro hgt
    simp only [change_processors, if_pos hgt]
    refine ⟨by simp, ?_⟩
    rw [List.map_append, List.map_map]
    rw [List.drop_append_of_le_length (by simp)]
    have hdrop : (lb.processors.map Processor.id).drop lb.processors.length = [] := by
      apply List.drop_eq_nil_of_le
      simp
    rw [hdrop]
    simp [Processor.mk0, Function.comp_def]

/-- C7 witness: 4 processors each holding one task shrunk to 2 re-queue
exactly the 2 removed tasks; 2 processors grown to 4 gain ids 2 and 3. -/
theorem C7_change_processor_count_witness :
    let lbS : LoadBalancer := { mkLoadBalancer 0 with
      processors := (List.range 4).map fun i =>
        (Processor.mk0 i).add_task ⟨i, 10, 5, 5⟩ }
    ((change_processors lbS 2).processors = lbS.processors.take 2 ∧
      (change_processors lbS 2).task_queue = lbS.task_queue ++
        ((lbS.processors.drop 2).map Processor.tasks).flatten) ∧
    (change_processors lbS 2).task_queue.length = 2 ∧
    ((change_processors (mkLoadBalancer 2) 4).processors.map Processor.id).drop 2 =
      List.range' 2 2 := by
  intro lbS
  refine ⟨(C7_change_processor_count lbS 2).1 (by with_unfolding_all decide),
    by with_unfolding_all decide, ?_⟩
  have h := ((C7_change_processor_count (mkLoadBalancer 2) 4).2
    (by with_unfolding_all decide)).2
  simpa using h

/-- C6: `_least_loaded` always gives the task to the processor selected
by the spec's rule — minimum `current_load`, ties broken by original
order — and does so whether or not that processor has available
capacity for the task (both branches of the capacity test assign to the
same processor). -/
theorem C6_least_loaded_minimum (lb : LoadBalancer) (t : Task)
    (h : lb.processors ≠ []) :
    ∃ k, specLeastLoadedIdx lb.processors = some k ∧
      lb._least_loaded t = { lb with processors := addTaskAt lb.processors k t } := by
  have hn : 0 < lb.processors.length := List.length_pos.mpr h
  obtain ⟨k, rest, hsort, hkn, hmin, hfirst⟩ :=
    mergeSort_range_head (loadAt lb.processors) lb.processors.length hn
  refine ⟨k, ?_, ?_⟩
  · unfold specLeastLoadedIdx
    apply find?_range_eq_some hkn
    · simp only [decide_eq_true_eq]
      exact hmin
    · intro j hj
      simp only [decide_eq_false_iff_not]
      intro hall
      exact absurd (hall k hkn) (not_le.mpr (hfirst j hj))
  · simp only [LoadBalancer._least_loaded]
    rw [hsort]
    simp only [ite_self]

/-- C6 witness: with current loads `[30, 10, 50]` the chosen processor
is the one at index 1 (load 10), capacity aside. -/
theorem C6_least_loaded_minimum_witness :
    let lb : LoadBalancer := { mkLoadBalancer 0 with
      processors :=
        [{ Processor.mk0 0 with current_load := 30 },
         { Processor.mk0 1 with current_load := 10 },
         { Processor.mk0 2 with current_load := 50 }],
      algorithm := "least_loaded" }
    (∃ k, specLeastLoadedIdx lb.processors = some k ∧
      lb._least_loaded ⟨9, 5, 3, 3⟩ =
        { lb with processors := addTaskAt lb.processors k ⟨9, 5, 3, 3⟩ }) ∧
    specLeastLoadedIdx lb.processors = some 1 := by
  intro lb
  exact ⟨C6_least_loaded_minimum lb ⟨9, 5, 3, 3⟩ (by with_unfolding_all decide),
    by with_unfolding_all decide⟩

/-- C10: the weighted and adaptive rankings divide by
`processing_speed`; with any processor at speed 0 the key computation
raises (`none`) and selection fails, and when every speed is non-zero
(plus non-zero capacity for adaptive's `current_load/capacity` factor)
selection succeeds. -/
theorem C10_zero_speed_division (lb : LoadBalancer) (t : Task) :
    ((∃ p ∈ lb.processors, p.processing_speed = 0) →
      lb._weighted_distribution t = none ∧
      lb._adaptive_distribution t = none) ∧
    ((∀ p ∈ lb.processors, p.processing_speed ≠ 0) →
      (lb._weighted_distribution t).isSome = true) ∧
    ((∀ p ∈ lb.processors, p.processing_speed ≠ 0 ∧ p.capacity ≠ 0) →
      (lb._adaptive_distribution t).isSome = true) := by
  refine ⟨fun h => ⟨weighted_zero_speed lb t h, adaptive_zero_speed lb t h⟩,
    fun hs => ?_, fun hsc => ?_⟩
  · by_cases hne : lb.processors = []
    · simp [LoadBalancer._weighted_distribution, hne, computeKeys]
    · obtain ⟨k, -, heq⟩ := weighted_assigns lb t hne hs
      rw [heq]
      rfl
  · by_cases hne : lb.processors = []
    · simp [LoadBalancer._adaptive_distribution, hne, computeKeys]
    · obtain ⟨k, -, heq⟩ := adaptive_assigns lb t hne hsc
      rw [heq]
      rfl

/-- C10 witness: a single processor at speed 0 makes both strategies
fail. -/
theorem C10_zero_speed_division_witness :
    let lb : LoadBalancer := { mkLoadBalancer 0 with
      processors := [{ Processor.mk0 0 with processing_speed := 0 }] }
    lb._weighted_distribution ⟨0, 10, 5, 5⟩ = none ∧
      lb._adaptive_distribution ⟨0, 10, 5, 5⟩ = none := by
  intro lb
  exact (C10_zero_speed_division lb ⟨0, 10, 5, 5⟩).1
    ⟨{ Processor.mk0 0 with processing_speed := 0 },
      by with_unfolding_all decide, rfl⟩

/-- C9: the claim's second half — "as soon as at least one processor
exists, every dequeued task is assigned to some processor" — fails: a
single zero-speed processor under the weighted strategy makes the key
computation raise, so `distribute_tasks` aborts with the dequeued task
neither assigned nor re-queued. -/
theorem C9_nonempty_assignment_counterexample :
    let lb : LoadBalancer := { mkLoadBalancer 0 with
      processors := [{ Processor.mk0 0 with processing_speed := 0 }],
      algorithm := "weighted",
      task_queue := [⟨0, 10, 5, 5⟩] }
    lb.processors ≠ [] ∧ lb.distribute_tasks = none := by
  intro lb
  exact ⟨by with_unfolding_all decide, by with_unfolding_all decide⟩

/-- C9 (amended): with no processors, `distribute_tasks` drains the
queue and silently drops every dequeued task (state otherwise
untouched, no error); with at least one processor, one of the four
algorithms selected, and every division defined (non-zero speeds, and
non-zero capacities for adaptive), every dequeued task is assigned to
some processor: the queue empties and the total owned-task count grows
by exactly the number of dequeued tasks. -/
theorem C9_empty_drops_nonempty_assigns (lb : LoadBalancer) :
    (lb.processors = [] →
      lb.distribute_tasks = some { lb with task_queue := [] }) ∧
    ((lb.processors ≠ [] ∧
        lb.algorithm ∈
          (["round_robin", "least_loaded", "weighted", "adaptive"] :
            List String) ∧
        ∀ p ∈ lb.processors, p.processing_speed ≠ 0 ∧ p.capacity ≠ 0) →
      ∃ lb2, lb.distribute_tasks = some lb2 ∧ lb2.task_queue = [] ∧
        totalTasks lb2.processors =
          totalTasks lb.processors + lb.task_queue.length) := by
  constructor
  · intro hps
    exact distributeGo_static lb.task_queue lb rfl
      fun r t => dispatch_empty { lb with task_queue := r } t hps
  · intro ⟨hne, halg, hsc⟩
    exact distributeGo_assigns lb.task_queue lb rfl hne halg hsc

/-- C9 witness: with zero processors a queued task is silently dropped;
with three fresh processors a queued task is assigned (total task count
goes from 0 to 1). -/
theorem C9_empty_drops_nonempty_assigns_witness :
    ((mkLoadBalancer 0).add_task 20 5).distribute_tasks =
      some { (mkLoadBalancer 0).add_task 20 5 with task_queue := [] } ∧
    ∃ lb2, ((mkLoadBalancer 3).add_task 20 5).distribute_tasks = some lb2 ∧
      lb2.task_queue = [] ∧
      totalTasks lb2.processors =
        totalTasks ((mkLoadBalancer 3).add_task 20 5).processors +
          ((mkLoadBalancer 3).add_task 20 5).task_queue.length :=
  ⟨(C9_empty_drops_nonempty_assigns ((mkLoadBalancer 0).add_task 20 5)).1
      (by with_unfolding_all decide),
   (C9_empty_drops_nonempty_assigns ((mkLoadBalancer 3).add_task 20 5)).2
      ⟨by with_unfolding_all decide, by with_unfolding_all decide,
       by with_unfolding_all decide⟩⟩

end ClaimTheorems

end DynamicLoad
